import Mathlib

/-!
Verification of the spectrum-aggregation core of `src/ubxScope.py`.

The embedding models the data flow of the original program:

* `DataDict` models the Bokeh `ColumnDataSource.data` Python dict
  (insertion-ordered association list from series-name strings to arrays).
* Power values are modelled as rationals (`ℚ`); the numpy elementwise
  operations used by the source (`np.maximum`, `np.mean(np.array([a,b]),
  axis=0)`) are modelled including their shape rules: `np.maximum`
  broadcasts when one operand has length 1 and raises otherwise on a
  length mismatch; `np.array([a,b])` raises on ragged input.  A raised
  Python exception is modelled as `none`.
* `onUBXMessage` models `UBXScope.onUBXMessage` (src lines 294-333):
  it returns the state together with the payload scheduled for the render
  sink via `add_next_tick_callback`, or `none` when the handler raises.
* `updateSpectrumPlot` models `UBXScope.updateSpectrumPlot` (285-292):
  it first replaces the data source's data, then updates the metadata
  labels, returning `false` when the label loop raises part-way.
* `spanStep` composes one SPAN message with its scheduled publish, i.e.
  the sequential semantics in which each scheduled publish is processed
  before the next message arrives (the message/tick interleaving itself
  is a concurrency concern outside this embedding).
* `cmaVisibleChangeHandler` models the reset handler (280-283).
* `queueOnEvent` models the `UBXScopeQueue` callbacks (109-119).
-/

abbrev Series := List ℚ

/-- A Python dict from series names to arrays, insertion ordered. -/
abbrev DataDict := List (String × Series)

/-- Python dict lookup `d[key]`; `none` models a raised `KeyError`. -/
def dictGet : DataDict → String → Option Series
  | [], _ => none
  | (k, v) :: rest, key => if k = key then some v else dictGet rest key

/-- Python dict assignment `d[key] = val`: replaces in place, else appends. -/
def dictSet : DataDict → String → Series → DataDict
  | [], key, val => [(key, val)]
  | (k, v) :: rest, key, val =>
      if k = key then (k, val) :: rest else (k, v) :: dictSet rest key val

def dictKeys (d : DataDict) : List String := d.map Prod.fst

/-- Python list assignment `l[i] = a`; `none` models a raised `IndexError`. -/
def listSet {α : Type} : List α → Nat → α → Option (List α)
  | [], _, _ => none
  | _ :: rest, 0, a => some (a :: rest)
  | x :: rest, n + 1, a => (listSet rest n a).map (fun l => x :: l)

/-- src line 29: `SPAN_BIN_COUNT=256`. -/
def SPAN_BIN_COUNT : Nat := 256

/-- src line 127: `self.numRfBlocks = 2`. -/
def numRfBlocks : Nat := 2

def freqKey (b : Nat) : String := "spectrumBinCenterFreqs_" ++ toString b
def spectrumKey (b : Nat) : String := "spectrum_" ++ toString b
def maximaKey (b : Nat) : String := "spectrumMaxima_" ++ toString b
def cmaKey (b : Nat) : String := "spectrumCMA_" ++ toString b

/-- `np.zeros(n)`. -/
def npZeros (n : Nat) : Series := List.replicate n 0

/-- `np.maximum(a, b)` on one-dimensional arrays, with numpy's broadcast
rule for shapes `(n,)` vs `(m,)`: elementwise when `n = m`, broadcast when
one length is 1, otherwise a raised `ValueError` (`none`). -/
def npMaximum (a b : Series) : Option Series :=
  if a.length = b.length then some (List.zipWith max a b)
  else if a.length = 1 then some (b.map (fun y => max a.headI y))
  else if b.length = 1 then some (a.map (fun x => max x b.headI))
  else none

/-- `np.array([a, b])`: a 2×n matrix when the rows agree in length,
otherwise a raised `ValueError` on ragged input (`none`). -/
def npArray2 (a b : Series) : Option (List Series) :=
  if a.length = b.length then some [a, b] else none

/-- Columnwise sums of a list of equal-length rows. -/
def colSum : List Series → Series
  | [] => []
  | r :: rest =>
      if rest.isEmpty then r else List.zipWith (fun x y => x + y) r (colSum rest)

/-- `np.mean(m, axis=0)`: columnwise sum divided by the number of rows. -/
def npMeanAxis0 (rows : List Series) : Series :=
  (colSum rows).map (fun s => s / (rows.length : ℚ))

/-- One RF block of a decoded SPAN message: `msg.spectra[b]`. -/
structure BlockSpectrum where
  spectrumBinCenterFreqs : Series
  spectrum : Series
  pga : ℚ
deriving DecidableEq

/-- A decoded UBX-MON-SPAN message. -/
structure SpanMsg where
  spectra : List BlockSpectrum
deriving DecidableEq

/-- `msg.numRfBlocks`. -/
def SpanMsg.numBlocks (m : SpanMsg) : Nat := m.spectra.length

/-- The power series of block `b` of a message (default for out of range). -/
def SpanMsg.blockSpectrum (m : SpanMsg) (b : Nat) : Series :=
  (m.spectra.getD b ⟨[], [], 0⟩).spectrum

/-- One entry of the heterogeneous Python list `newSpectrumMetaData`,
initialised at src line 298 as `[self.numRfBlocks, None]`. -/
inductive MetaEntry where
  | initInt : Nat → MetaEntry
  | noneVal : MetaEntry
  | pgaVal : ℚ → MetaEntry
deriving DecidableEq

/-- The pair scheduled for the render sink at src line 330: the
`newSpectrumData` dict and the `newSpectrumMetaData` list. -/
structure Payload where
  spectrumData : DataDict
  spectrumMetaData : List MetaEntry
deriving DecidableEq

/-- A decoded UBX message, with its Python class name. -/
inductive UBXMsg where
  | SPAN : SpanMsg → UBXMsg
  | PVT : UBXMsg
  | other : String → UBXMsg

/-- `msg.__class__.__name__`. -/
def UBXMsg.className : UBXMsg → String
  | .SPAN _ => "SPAN"
  | .PVT => "PVT"
  | .other n => n

/-- The mutable scope state: the `ColumnDataSource.data` dict and the
texts of the per-block metadata `Div` labels. -/
structure ScopeState where
  data : DataDict
  blockMetadataLabels : List String
deriving DecidableEq

/-- src lines 135-141: the initial `dataSourceDict`, keys inserted per
block in the order freqs, maxima, CMA, spectrum, all `np.zeros(256)`. -/
def initialDataSourceDict : DataDict :=
  (List.range numRfBlocks).foldl (fun d block =>
    dictSet (dictSet (dictSet (dictSet d
      (freqKey block) (npZeros SPAN_BIN_COUNT))
      (maximaKey block) (npZeros SPAN_BIN_COUNT))
      (cmaKey block) (npZeros SPAN_BIN_COUNT))
      (spectrumKey block) (npZeros SPAN_BIN_COUNT)) []

/-- The scope state right after `UBXScope.__init__` (labels `NO_DATA`). -/
def initialScope : ScopeState :=
  ⟨initialDataSourceDict, List.replicate numRfBlocks "NO_DATA"⟩

/-- src lines 313-328: the body of the per-block loop of `onUBXMessage`.
Reads the previous maxima/CMA from the live data source `prev`, computes
`np.maximum`/`np.mean`, and extends the `newSpectrumData` dict and the
`newSpectrumMetaData` list carried in `acc`. -/
def processBlock (prev : DataDict) (acc : Payload) (b : Nat)
    (sp : BlockSpectrum) : Option Payload := do
  let d1 := dictSet acc.spectrumData (freqKey b) sp.spectrumBinCenterFreqs
  let d2 := dictSet d1 (spectrumKey b) sp.spectrum
  let prevMax ← dictGet prev (maximaKey b)
  let newMax ← npMaximum sp.spectrum prevMax
  let d3 := dictSet d2 (maximaKey b) newMax
  let prevCMA ← dictGet prev (cmaKey b)
  let stacked ← npArray2 sp.spectrum prevCMA
  let d4 := dictSet d3 (cmaKey b) (npMeanAxis0 stacked)
  let meta ← listSet acc.spectrumMetaData b (MetaEntry.pgaVal sp.pga)
  pure ⟨d4, meta⟩

/-- src line 300: `for block in range(msg.numRfBlocks)`. -/
def processBlocks (prev : DataDict) :
    List (Nat × BlockSpectrum) → Payload → Option Payload
  | [], acc => some acc
  | (b, sp) :: rest, acc => do
      let acc2 ← processBlock prev acc b sp
      processBlocks prev rest acc2

/-- src lines 294-333: `UBXScope.onUBXMessage`.  Returns the (unchanged)
state plus the payload scheduled via `add_next_tick_callback`, `some none`
when nothing is scheduled, and `none` when the handler raises. -/
def onUBXMessage (st : ScopeState) (msg : UBXMsg) (msgClass : String) :
    Option (ScopeState × Option Payload) :=
  if msgClass = "SPAN" then
    match msg with
    | .SPAN m =>
        match processBlocks st.data m.spectra.enum
            ⟨[], [.initInt numRfBlocks, .noneVal]⟩ with
        | none => none
        | some p => some (st, some p)
    | _ => some (st, none)
  else some (st, none)

/-- src line 292: the label text `f'PGA Gain: {pgaGain} dB'`. -/
def pgaLabelText (q : ℚ) : String := "PGA Gain: " ++ toString q ++ " dB"

/-- src lines 290-292: the metadata-label loop of `updateSpectrumPlot`.
`block['pga']` on the `int`/`None` placeholder entries raises, modelled by
the `false` flag; labels updated so far are kept. -/
def setLabelTexts (labels : List String) :
    List (Nat × MetaEntry) → List String × Bool
  | [] => (labels, true)
  | (i, MetaEntry.pgaVal q) :: rest =>
      match listSet labels i (pgaLabelText q) with
      | none => (labels, false)
      | some l2 => setLabelTexts l2 rest
  | _ :: _ => (labels, false)

/-- src lines 285-292: `updateSpectrumPlot` replaces the data source's
data dict, then updates the metadata labels; the flag is `false` when the
label loop raises (after the data was already replaced). -/
def updateSpectrumPlot (st : ScopeState) (p : Payload) : ScopeState × Bool :=
  let r := setLabelTexts st.blockMetadataLabels p.spectrumMetaData.enum
  (⟨p.spectrumData, r.1⟩, r.2)

/-- One SPAN message followed by its scheduled publish (sequential
semantics); `none` when either stage raises. -/
def spanStep (st : ScopeState) (m : SpanMsg) : Option ScopeState :=
  match onUBXMessage st (UBXMsg.SPAN m) "SPAN" with
  | none => none
  | some (st1, none) => some st1
  | some (st1, some p) =>
      match updateSpectrumPlot st1 p with
      | (st2, true) => some st2
      | (_, false) => none

/-- A whole sequence of SPAN snapshots processed in order. -/
def runMsgs : ScopeState → List SpanMsg → Option ScopeState
  | st, [] => some st
  | st, m :: rest =>
      match spanStep st m with
      | none => none
      | some st2 => runMsgs st2 rest

/-- src lines 280-283: `cmaVisibleChangeHandler` — on `new == True` it
overwrites only the `spectrumCMA_<b>` entries with `np.zeros(256)`. -/
def cmaVisibleChangeHandler (st : ScopeState) (new : Bool) : ScopeState :=
  if new = true then
    ⟨(List.range numRfBlocks).foldl
        (fun d block => dictSet d (cmaKey block) (npZeros 256)) st.data,
     st.blockMetadataLabels⟩
  else st

/-- The callbacks the parser thread can deliver to `UBXScopeQueue`. -/
inductive QueueEvent where
  | ubx : UBXMsg → QueueEvent
  | ubxError : String → String → String → QueueEvent
  | nmea : String → QueueEvent
  | nmeaError : String → QueueEvent

/-- src lines 115-117: `UBXScopeQueue.onUBX` forwards only SPAN and PVT. -/
def onUBXQueue (st : ScopeState) (msg : UBXMsg) :
    Option (ScopeState × Option Payload) :=
  if msg.className ∈ ["SPAN", "PVT"] then onUBXMessage st msg msg.className
  else some (st, none)

/-- src lines 109-119: all `UBXScopeQueue` callbacks.  `onUBXError`,
`onNMEA` and `onNMEAError` just `return`. -/
def queueOnEvent (st : ScopeState) : QueueEvent → Option (ScopeState × Option Payload)
  | QueueEvent.ubx m => onUBXQueue st m
  | QueueEvent.ubxError _ _ _ => some (st, none)
  | QueueEvent.nmea _ => some (st, none)
  | QueueEvent.nmeaError _ => some (st, none)

/-- The scheduled render payload of one `onUBXMessage` call for a SPAN
message (the `newSpectrumData` dict), ignoring the later tick. -/
def onSpanPayload (st : ScopeState) (m : SpanMsg) : Option Payload :=
  (onUBXMessage st (UBXMsg.SPAN m) "SPAN").bind (fun r => r.2)

/-- Running-maximum series of block `b` after a sequence of snapshots
starting from the freshly initialised scope. -/
def maximaAfter (msgs : List SpanMsg) (b : Nat) : Option Series :=
  (runMsgs initialScope msgs).bind (fun st => dictGet st.data (maximaKey b))

/-- Running-mean (CMA) series of block `b` after a sequence of snapshots
starting from the freshly initialised scope. -/
def cmaAfter (msgs : List SpanMsg) (b : Nat) : Option Series :=
  (runMsgs initialScope msgs).bind (fun st => dictGet st.data (cmaKey b))

/-- A snapshot covering the two configured blocks, 256 bins each. -/
def WFMsg (m : SpanMsg) : Prop :=
  m.spectra.length = numRfBlocks ∧
    ∀ sp ∈ m.spectra, sp.spectrum.length = SPAN_BIN_COUNT

instance (m : SpanMsg) : Decidable (WFMsg m) := by
  unfold WFMsg; infer_instance

def WFMsgs (msgs : List SpanMsg) : Prop := ∀ m ∈ msgs, WFMsg m

instance (msgs : List SpanMsg) : Decidable (WFMsgs msgs) := by
  unfold WFMsgs; infer_instance

/-- The state invariant maintained by the program: two labels, and for
each configured block a 256-bin maxima series with nonnegative entries
and a 256-bin CMA series. -/
def GoodState (st : ScopeState) : Prop :=
  st.blockMetadataLabels.length = numRfBlocks ∧
  ∀ b, b < numRfBlocks →
    (∃ mx, dictGet st.data (maximaKey b) = some mx ∧
      mx.length = SPAN_BIN_COUNT ∧ ∀ x ∈ mx, 0 ≤ x) ∧
    (∃ c, dictGet st.data (cmaKey b) = some c ∧ c.length = SPAN_BIN_COUNT)

/-- States reachable from initialisation by SPAN updates and visibility
resets (PVT and discarded messages leave the state unchanged). -/
inductive Reachable : ScopeState → Prop
  | init : Reachable initialScope
  | span {st : ScopeState} {m : SpanMsg} {st2 : ScopeState} :
      Reachable st → spanStep st m = some st2 → Reachable st2
  | reset {st : ScopeState} (b : Bool) :
      Reachable st → Reachable (cmaVisibleChangeHandler st b)

-- sanity checks on the embedding
example : dictGet initialDataSourceDict (maximaKey 0) =
    some (npZeros SPAN_BIN_COUNT) := rfl

example : dictGet initialDataSourceDict (cmaKey 1) =
    some (npZeros SPAN_BIN_COUNT) := rfl

example : dictGet initialDataSourceDict (maximaKey 2) = none := rfl

/-! ### Generic dictionary and list lemmas -/

theorem dictGet_dictSet_same (d : DataDict) (k : String) (v : Series) :
    dictGet (dictSet d k v) k = some v := by
  induction d with
  | nil => simp [dictSet, dictGet]
  | cons hd tl ih =>
      obtain ⟨k2, v2⟩ := hd
      by_cases h : k2 = k
      · simp [dictSet, dictGet, h]
      · simp [dictSet, dictGet, h, ih]

theorem dictGet_dictSet_ne (d : DataDict) (k key : String) (v : Series)
    (h : key ≠ k) : dictGet (dictSet d k v) key = dictGet d key := by
  induction d with
  | nil =>
      simp only [dictSet, dictGet]
      rw [if_neg (fun hh => h (Eq.symm hh))]
  | cons hd tl ih =>
      obtain ⟨k2, v2⟩ := hd
      by_cases h2 : k2 = k
      · subst h2
        simp only [dictSet, if_pos rfl, dictGet]
        rw [if_neg (fun hh => h (Eq.symm hh)), if_neg (fun hh => h (Eq.symm hh))]
      · simp only [dictSet, if_neg h2, dictGet]
        by_cases h3 : k2 = key
        · rw [if_pos h3, if_pos h3]
        · rw [if_neg h3, if_neg h3, ih]

theorem listSet_length {α : Type} (l : List α) (n : Nat) (a : α) (l2 : List α)
    (h : listSet l n a = some l2) : l2.length = l.length := by
  induction l generalizing n l2 with
  | nil => simp [listSet] at h
  | cons hd tl ih =>
      cases n with
      | zero =>
          simp [listSet] at h
          subst h; simp
      | succ n =>
          simp [listSet] at h
          obtain ⟨l3, h3, h4⟩ := h
          subst h4
          simp [ih n l3 h3]

theorem listSet_none {α : Type} (l : List α) (n : Nat) (a : α)
    (h : l.length ≤ n) : listSet l n a = none := by
  induction l generalizing n with
  | nil => simp [listSet]
  | cons hd tl ih =>
      cases n with
      | zero => simp at h
      | succ n =>
          have h2 : tl.length ≤ n := by simpa using h
          simp [listSet, ih n h2]

/-! ### Elementwise series lemmas -/

theorem zipWith_max_nonneg (a b : Series) (hb : ∀ y ∈ b, 0 ≤ y) :
    ∀ x ∈ List.zipWith max a b, 0 ≤ x := by
  induction a generalizing b with
  | nil => simp
  | cons x a ih =>
      cases b with
      | nil => simp
      | cons y b =>
          simp only [List.zipWith_cons_cons, List.mem_cons]
          rintro z (rfl | hz)
          · exact le_trans (hb y (by simp)) (le_max_right x y)
          · exact ih b (fun w hw => hb w (by simp [hw])) z hz

theorem le_zipWith_max (s a : Series) (h : a.length ≤ s.length) :
    List.Forall₂ (· ≤ ·) a (List.zipWith max s a) := by
  induction a generalizing s with
  | nil => simp
  | cons x a ih =>
      cases s with
      | nil => simp at h
      | cons y s =>
          simp only [List.zipWith_cons_cons]
          exact List.Forall₂.cons (le_max_right y x) (ih s (by simpa using h))

theorem zipWith_max_zeros (s : Series) (n : Nat) (hn : s.length = n)
    (hs : ∀ x ∈ s, 0 ≤ x) : List.zipWith max s (npZeros n) = s := by
  induction s generalizing n with
  | nil => simp
  | cons x s ih =>
      cases n with
      | zero => simp at hn
      | succ n =>
          simp only [npZeros, List.replicate_succ, List.zipWith_cons_cons]
          rw [max_eq_left (hs x (by simp))]
          have := ih n (by simpa using hn) (fun w hw => hs w (by simp [hw]))
          simp only [npZeros] at this
          rw [this]

theorem npMeanAxis0_pair (a b : Series) :
    npMeanAxis0 [a, b] = List.zipWith (fun x y => (x + y) / 2) a b := by
  simp only [npMeanAxis0, colSum, List.isEmpty_cons, List.isEmpty_nil, if_false, if_true,
    Bool.false_eq_true, List.length_cons, List.length_singleton, List.map_zipWith]
  norm_num

/-! ### Characterisation of one SPAN update on a two-block message -/

/-- The four dict entries `onUBXMessage` writes for one block, in
insertion order (src lines 314-323). -/
def blockEntries (sp : BlockSpectrum) (b : Nat) (mx c : Series) : DataDict :=
  [(freqKey b, sp.spectrumBinCenterFreqs),
   (spectrumKey b, sp.spectrum),
   (maximaKey b, List.zipWith max sp.spectrum mx),
   (cmaKey b, List.zipWith (fun x y => (x + y) / 2) sp.spectrum c)]

/-- The full payload of a two-block SPAN update. -/
def twoBlockPayload (sp0 sp1 : BlockSpectrum) (mx0 c0 mx1 c1 : Series) : Payload :=
  ⟨blockEntries sp0 0 mx0 c0 ++ blockEntries sp1 1 mx1 c1,
   [MetaEntry.pgaVal sp0.pga, MetaEntry.pgaVal sp1.pga]⟩

theorem processBlocks_two (prev : DataDict) (sp0 sp1 : BlockSpectrum)
    (mx0 mx1 c0 c1 : Series)
    (hm0 : dictGet prev (maximaKey 0) = some mx0)
    (hc0 : dictGet prev (cmaKey 0) = some c0)
    (hm1 : dictGet prev (maximaKey 1) = some mx1)
    (hc1 : dictGet prev (cmaKey 1) = some c1)
    (hl0 : sp0.spectrum.length = mx0.length)
    (hl0c : sp0.spectrum.length = c0.length)
    (hl1 : sp1.spectrum.length = mx1.length)
    (hl1c : sp1.spectrum.length = c1.length) :
    processBlocks prev [(0, sp0), (1, sp1)]
        ⟨[], [MetaEntry.initInt numRfBlocks, MetaEntry.noneVal]⟩
      = some (twoBlockPayload sp0 sp1 mx0 c0 mx1 c1) := by
  have e0 : npMaximum sp0.spectrum mx0 = some (List.zipWith max sp0.spectrum mx0) := by
    simp [npMaximum, hl0]
  have e1 : npMaximum sp1.spectrum mx1 = some (List.zipWith max sp1.spectrum mx1) := by
    simp [npMaximum, hl1]
  have f0 : npArray2 sp0.spectrum c0 = some [sp0.spectrum, c0] := by
    simp [npArray2, hl0c]
  have f1 : npArray2 sp1.spectrum c1 = some [sp1.spectrum, c1] := by
    simp [npArray2, hl1c]
  simp only [processBlocks, processBlock, hm0, hc0, hm1, hc1, e0, e1, f0, f1,
    npMeanAxis0_pair, Option.some_bind, Option.bind_eq_bind]
  rfl

theorem setLabelTexts_two (l0 l1 : String) (p0 p1 : ℚ) :
    setLabelTexts [l0, l1] ([MetaEntry.pgaVal p0, MetaEntry.pgaVal p1].enum) =
      ([pgaLabelText p0, pgaLabelText p1], true) := rfl

/-- A successful two-block update, fully characterised: the data source
is replaced by the eight freshly computed series and the labels by the
two PGA texts. -/
theorem spanStep_two (st : ScopeState) (sp0 sp1 : BlockSpectrum)
    (mx0 mx1 c0 c1 : Series) (l0 l1 : String)
    (hlab : st.blockMetadataLabels = [l0, l1])
    (hm0 : dictGet st.data (maximaKey 0) = some mx0)
    (hc0 : dictGet st.data (cmaKey 0) = some c0)
    (hm1 : dictGet st.data (maximaKey 1) = some mx1)
    (hc1 : dictGet st.data (cmaKey 1) = some c1)
    (hl0 : sp0.spectrum.length = mx0.length)
    (hl0c : sp0.spectrum.length = c0.length)
    (hl1 : sp1.spectrum.length = mx1.length)
    (hl1c : sp1.spectrum.length = c1.length) :
    spanStep st ⟨[sp0, sp1]⟩ =
      some ⟨blockEntries sp0 0 mx0 c0 ++ blockEntries sp1 1 mx1 c1,
            [pgaLabelText sp0.pga, pgaLabelText sp1.pga]⟩ := by
  have hp := processBlocks_two st.data sp0 sp1 mx0 mx1 c0 c1 hm0 hc0 hm1 hc1
    hl0 hl0c hl1 hl1c
  have henum : (SpanMsg.mk [sp0, sp1]).spectra.enum = [(0, sp0), (1, sp1)] := rfl
  simp only [spanStep, onUBXMessage, if_pos rfl, if_true, henum, hp,
    updateSpectrumPlot, twoBlockPayload, hlab, setLabelTexts_two]

/-- If the incoming bin count of a block disagrees with the stored series
length, the block computation raises (`np.maximum` broadcast failure or
`np.array` ragged-input failure). -/
theorem processBlock_none_of_len (prev : DataDict) (acc : Payload) (b : Nat)
    (sp : BlockSpectrum) (mx c : Series)
    (hm : dictGet prev (maximaKey b) = some mx)
    (hc : dictGet prev (cmaKey b) = some c)
    (hmc : mx.length = c.length)
    (hne : sp.spectrum.length ≠ mx.length) :
    processBlock prev acc b sp = none := by
  have hnec : sp.spectrum.length ≠ c.length := fun hh => hne (hh.trans hmc.symm)
  have harr : npArray2 sp.spectrum c = none := by
    simp only [npArray2]
    rw [if_neg hnec]
  cases hmax : npMaximum sp.spectrum mx with
  | none => simp [processBlock, hm, hc, hmax]
  | some r => simp [processBlock, hm, hc, hmax, harr]

/-- A block index past the end of the metadata list makes the block
computation raise (`IndexError` on `newSpectrumMetaData[block]`), no
matter what the data source holds. -/
theorem processBlock_none_of_meta (prev : DataDict) (acc : Payload) (b : Nat)
    (sp : BlockSpectrum) (h : acc.spectrumMetaData.length ≤ b) :
    processBlock prev acc b sp = none := by
  have hset := listSet_none acc.spectrumMetaData b (MetaEntry.pgaVal sp.pga) h
  cases h1 : dictGet prev (maximaKey b) with
  | none => simp [processBlock, h1]
  | some mx => cases h2 : npMaximum sp.spectrum mx with
    | none => simp [processBlock, h1, h2]
    | some r => cases h3 : dictGet prev (cmaKey b) with
      | none => simp [processBlock, h1, h2, h3]
      | some c => cases h4 : npArray2 sp.spectrum c with
        | none => simp [processBlock, h1, h2, h3, h4]
        | some mat => simp [processBlock, h1, h2, h3, h4, hset]

/-- A successful block computation leaves the metadata list length
unchanged. -/
theorem processBlock_meta_length (prev : DataDict) (acc acc2 : Payload)
    (b : Nat) (sp : BlockSpectrum)
    (h : processBlock prev acc b sp = some acc2) :
    acc2.spectrumMetaData.length = acc.spectrumMetaData.length := by
  simp only [processBlock, Option.bind_eq_bind, Option.bind_eq_some,
    Option.pure_def, Option.some_inj] at h
  obtain ⟨mx, hmx, r, hr, c, hc, mat, hmat, meta, hmeta, hacc⟩ := h
  subst hacc
  exact listSet_length acc.spectrumMetaData b (MetaEntry.pgaVal sp.pga) meta hmeta

theorem goodState_initial : GoodState initialScope := by
  constructor
  · simp [initialScope, numRfBlocks]
  · intro b hb
    have hb2 : b < 2 := hb
    interval_cases b
    · refine ⟨⟨npZeros SPAN_BIN_COUNT, rfl,
        by simp only [npZeros, List.length_replicate], ?_⟩,
        ⟨npZeros SPAN_BIN_COUNT, rfl, by simp only [npZeros, List.length_replicate]⟩⟩
      intro x hx
      rw [List.eq_of_mem_replicate hx]
    · refine ⟨⟨npZeros SPAN_BIN_COUNT, rfl,
        by simp only [npZeros, List.length_replicate], ?_⟩,
        ⟨npZeros SPAN_BIN_COUNT, rfl, by simp only [npZeros, List.length_replicate]⟩⟩
      intro x hx
      rw [List.eq_of_mem_replicate hx]

theorem spanStep_eq (st : ScopeState) (m : SpanMsg) :
    spanStep st m =
      match processBlocks st.data m.spectra.enum
          ⟨[], [MetaEntry.initInt numRfBlocks, MetaEntry.noneVal]⟩ with
      | none => none
      | some p =>
          match updateSpectrumPlot st p with
          | (st2, true) => some st2
          | (_, false) => none := by
  cases hpb : processBlocks st.data m.spectra.enum
      ⟨[], [MetaEntry.initInt numRfBlocks, MetaEntry.noneVal]⟩ with
  | none => simp only [spanStep, onUBXMessage, if_pos rfl, if_true, hpb]
  | some p => simp only [spanStep, onUBXMessage, if_pos rfl, if_true, hpb]

theorem processBlocks_cons_none (prev : DataDict) (b : Nat) (sp : BlockSpectrum)
    (rest : List (Nat × BlockSpectrum)) (acc : Payload)
    (h : processBlock prev acc b sp = none) :
    processBlocks prev ((b, sp) :: rest) acc = none := by
  simp [processBlocks, h]

theorem processBlocks_cons_some (prev : DataDict) (b : Nat) (sp : BlockSpectrum)
    (rest : List (Nat × BlockSpectrum)) (acc acc2 : Payload)
    (h : processBlock prev acc b sp = some acc2) :
    processBlocks prev ((b, sp) :: rest) acc = processBlocks prev rest acc2 := by
  simp [processBlocks, h]

theorem setLabelTexts_snd_false (labels : List String) (k : Nat)
    (rest : List (Nat × MetaEntry)) :
    setLabelTexts labels ((0, MetaEntry.initInt k) :: rest) = (labels, false) := rfl

theorem spanStep_none_of_labels (st : ScopeState) (m : SpanMsg) (p : Payload)
    (hpb : processBlocks st.data m.spectra.enum
      ⟨[], [MetaEntry.initInt numRfBlocks, MetaEntry.noneVal]⟩ = some p)
    (hfail : (setLabelTexts st.blockMetadataLabels p.spectrumMetaData.enum).2
      = false) :
    spanStep st m = none := by
  rw [spanStep_eq, hpb]
  simp only [updateSpectrumPlot, hfail]

/-- A successful `spanStep` forces the message to carry exactly the two
configured blocks, each with the stored 256-bin count: any other shape
raises somewhere along the way. -/
theorem spanStep_some_inv (st : ScopeState) (m : SpanMsg) (st2 : ScopeState)
    (hg : GoodState st) (hs : spanStep st m = some st2) :
    ∃ sp0 sp1, m.spectra = [sp0, sp1] ∧
      sp0.spectrum.length = SPAN_BIN_COUNT ∧
      sp1.spectrum.length = SPAN_BIN_COUNT := by
  obtain ⟨hlab, hblocks⟩ := hg
  obtain ⟨⟨mx0, hm0, hm0len, _⟩, ⟨c0, hc0, hc0len⟩⟩ :=
    hblocks 0 (by norm_num [numRfBlocks])
  obtain ⟨⟨mx1, hm1, hm1len, _⟩, ⟨c1, hc1, hc1len⟩⟩ :=
    hblocks 1 (by norm_num [numRfBlocks])
  obtain ⟨l0, l1, hl⟩ := List.length_eq_two.mp hlab
  obtain ⟨ms⟩ := m
  match ms with
  | [] =>
      exfalso
      have hpb : processBlocks st.data (SpanMsg.mk []).spectra.enum
          ⟨[], [MetaEntry.initInt numRfBlocks, MetaEntry.noneVal]⟩ =
          some ⟨[], [MetaEntry.initInt numRfBlocks, MetaEntry.noneVal]⟩ := rfl
      rw [spanStep_none_of_labels _ _ _ hpb rfl] at hs
      exact Option.noConfusion hs
  | [sp0] =>
      exfalso
      cases hpb0 : processBlock st.data
          ⟨[], [MetaEntry.initInt numRfBlocks, MetaEntry.noneVal]⟩ 0 sp0 with
      | none =>
          have henum : (SpanMsg.mk [sp0]).spectra.enum = [(0, sp0)] := rfl
          rw [spanStep_eq, henum, processBlocks_cons_none _ _ _ _ _ hpb0] at hs
          exact Option.noConfusion hs
      | some acc1 =>
          -- after block 0 the metadata list is [pgaVal _, noneVal], so the
          -- label loop hits the None placeholder and raises
          have hacc : acc1.spectrumMetaData =
              [MetaEntry.pgaVal sp0.pga, MetaEntry.noneVal] := by
            have h2 := hpb0
            simp only [processBlock, Option.bind_eq_bind, Option.bind_eq_some,
              Option.pure_def, Option.some_inj] at h2
            obtain ⟨mx, hmx, r, hr, c, hc, mat, hmat, meta, hmeta2, haccEq⟩ := h2
            simp only [listSet, Option.map_some, Option.some_inj] at hmeta2
            rw [← haccEq]
            rw [← hmeta2]
          have henum : (SpanMsg.mk [sp0]).spectra.enum = [(0, sp0)] := rfl
          have hpb : processBlocks st.data (SpanMsg.mk [sp0]).spectra.enum
              ⟨[], [MetaEntry.initInt numRfBlocks, MetaEntry.noneVal]⟩ = some acc1 := by
            rw [henum, processBlocks_cons_some _ _ _ _ _ _ hpb0]
            rfl
          have hfail : (setLabelTexts st.blockMetadataLabels
              acc1.spectrumMetaData.enum).2 = false := by
            rw [hacc, hl]
            rfl
          rw [spanStep_none_of_labels _ _ _ hpb hfail] at hs
          exact Option.noConfusion hs
  | sp0 :: sp1 :: sp2 :: rest =>
      exfalso
      have henum : (SpanMsg.mk (sp0 :: sp1 :: sp2 :: rest)).spectra.enum =
          (0, sp0) :: (1, sp1) :: (2, sp2) :: List.enumFrom 3 rest := rfl
      cases hpb0 : processBlock st.data
          ⟨[], [MetaEntry.initInt numRfBlocks, MetaEntry.noneVal]⟩ 0 sp0 with
      | none =>
          rw [spanStep_eq, henum, processBlocks_cons_none _ _ _ _ _ hpb0] at hs
          exact Option.noConfusion hs
      | some acc1 =>
          cases hpb1 : processBlock st.data acc1 1 sp1 with
          | none =>
              rw [spanStep_eq, henum, processBlocks_cons_some _ _ _ _ _ _ hpb0,
                processBlocks_cons_none _ _ _ _ _ hpb1] at hs
              exact Option.noConfusion hs
          | some acc2 =>
              have hml1 : acc1.spectrumMetaData.length = 2 := by
                have := processBlock_meta_length _ _ _ _ _ hpb0
                simpa using this
              have hml2 : acc2.spectrumMetaData.length = 2 := by
                have := processBlock_meta_length _ _ _ _ _ hpb1
                rw [this, hml1]
              have hpb2 : processBlock st.data acc2 2 sp2 = none :=
                processBlock_none_of_meta _ _ _ _ (le_of_eq hml2)
              rw [spanStep_eq, henum, processBlocks_cons_some _ _ _ _ _ _ hpb0,
                processBlocks_cons_some _ _ _ _ _ _ hpb1,
                processBlocks_cons_none _ _ _ _ _ hpb2] at hs
              exact Option.noConfusion hs
  | [sp0, sp1] =>
      have henum : (SpanMsg.mk [sp0, sp1]).spectra.enum = [(0, sp0), (1, sp1)] := rfl
      refine ⟨sp0, sp1, rfl, ?_, ?_⟩
      · by_contra hne
        have h0 : processBlock st.data
            ⟨[], [MetaEntry.initInt numRfBlocks, MetaEntry.noneVal]⟩ 0 sp0 = none :=
          processBlock_none_of_len st.data _ 0 sp0 mx0 c0 hm0 hc0
            (hm0len.trans hc0len.symm) (by rw [hm0len]; exact hne)
        rw [spanStep_eq, henum, processBlocks_cons_none _ _ _ _ _ h0] at hs
        exact Option.noConfusion hs
      · by_contra hne
        cases hpb0 : processBlock st.data
            ⟨[], [MetaEntry.initInt numRfBlocks, MetaEntry.noneVal]⟩ 0 sp0 with
        | none =>
            rw [spanStep_eq, henum, processBlocks_cons_none _ _ _ _ _ hpb0] at hs
            exact Option.noConfusion hs
        | some acc1 =>
            have h1 : processBlock st.data acc1 1 sp1 = none :=
              processBlock_none_of_len st.data acc1 1 sp1 mx1 c1 hm1 hc1
                (hm1len.trans hc1len.symm) (by rw [hm1len]; exact hne)
            rw [spanStep_eq, henum, processBlocks_cons_some _ _ _ _ _ _ hpb0,
              processBlocks_cons_none _ _ _ _ _ h1] at hs
            exact Option.noConfusion hs

/-- Looking up the per-block series in the dict written by a two-block
update. -/
theorem twoBlock_lookups (sp0 sp1 : BlockSpectrum) (mx0 c0 mx1 c1 : Series) :
    dictGet (blockEntries sp0 0 mx0 c0 ++ blockEntries sp1 1 mx1 c1)
        (spectrumKey 0) = some sp0.spectrum ∧
    dictGet (blockEntries sp0 0 mx0 c0 ++ blockEntries sp1 1 mx1 c1)
        (maximaKey 0) = some (List.zipWith max sp0.spectrum mx0) ∧
    dictGet (blockEntries sp0 0 mx0 c0 ++ blockEntries sp1 1 mx1 c1)
        (cmaKey 0) = some (List.zipWith (fun x y => (x + y) / 2) sp0.spectrum c0) ∧
    dictGet (blockEntries sp0 0 mx0 c0 ++ blockEntries sp1 1 mx1 c1)
        (spectrumKey 1) = some sp1.spectrum ∧
    dictGet (blockEntries sp0 0 mx0 c0 ++ blockEntries sp1 1 mx1 c1)
        (maximaKey 1) = some (List.zipWith max sp1.spectrum mx1) ∧
    dictGet (blockEntries sp0 0 mx0 c0 ++ blockEntries sp1 1 mx1 c1)
        (cmaKey 1) = some (List.zipWith (fun x y => (x + y) / 2) sp1.spectrum c1) :=
  ⟨rfl, rfl, rfl, rfl, rfl, rfl⟩

/-- One well-formed SPAN message processed from a good state: the update
succeeds, preserves the invariant, and writes exactly the running-maximum
and two-term-average series prescribed by src lines 317-323. -/
theorem spanStep_good (st : ScopeState) (m : SpanMsg)
    (hg : GoodState st) (hm : WFMsg m) :
    ∃ st2, spanStep st m = some st2 ∧ GoodState st2 ∧
      ∀ b, b < numRfBlocks →
        (dictGet st2.data (spectrumKey b) = some (m.blockSpectrum b)) ∧
        (∀ mx, dictGet st.data (maximaKey b) = some mx →
          dictGet st2.data (maximaKey b) =
            some (List.zipWith max (m.blockSpectrum b) mx)) ∧
        (∀ c, dictGet st.data (cmaKey b) = some c →
          dictGet st2.data (cmaKey b) =
            some (List.zipWith (fun x y => (x + y) / 2) (m.blockSpectrum b) c)) := by
  obtain ⟨hlab, hblocks⟩ := hg
  obtain ⟨⟨mx0, hm0, hm0len, hm0pos⟩, ⟨c0, hc0, hc0len⟩⟩ :=
    hblocks 0 (by norm_num [numRfBlocks])
  obtain ⟨⟨mx1, hm1, hm1len, hm1pos⟩, ⟨c1, hc1, hc1len⟩⟩ :=
    hblocks 1 (by norm_num [numRfBlocks])
  obtain ⟨l0, l1, hl⟩ := List.length_eq_two.mp hlab
  obtain ⟨hcount, hbins⟩ := hm
  obtain ⟨sp0, sp1, hsp⟩ := List.length_eq_two.mp hcount
  have hb0 : sp0.spectrum.length = SPAN_BIN_COUNT := by
    apply hbins; rw [hsp]; simp
  have hb1 : sp1.spectrum.length = SPAN_BIN_COUNT := by
    apply hbins; rw [hsp]; simp
  obtain ⟨ms⟩ := m
  simp only at hsp
  subst hsp
  have hstep := spanStep_two st sp0 sp1 mx0 mx1 c0 c1 l0 l1 hl hm0 hc0 hm1 hc1
    (by rw [hb0, hm0len]) (by rw [hb0, hc0len]) (by rw [hb1, hm1len])
    (by rw [hb1, hc1len])
  refine ⟨_, hstep, ?_, ?_⟩
  · -- the new state satisfies the invariant again
    constructor
    · simp [numRfBlocks]
    · intro b hb
      have hb2 : b < 2 := hb
      obtain ⟨h1, h2, h3, h4, h5, h6⟩ := twoBlock_lookups sp0 sp1 mx0 c0 mx1 c1
      interval_cases b
      · refine ⟨⟨_, h2, ?_, ?_⟩, ⟨_, h3, ?_⟩⟩
        · rw [List.length_zipWith, hb0, hm0len]; simp
        · exact zipWith_max_nonneg sp0.spectrum mx0 hm0pos
        · rw [List.length_zipWith, hb0, hc0len]; simp
      · refine ⟨⟨_, h5, ?_, ?_⟩, ⟨_, h6, ?_⟩⟩
        · rw [List.length_zipWith, hb1, hm1len]; simp
        · exact zipWith_max_nonneg sp1.spectrum mx1 hm1pos
        · rw [List.length_zipWith, hb1, hc1len]; simp
  · intro b hb
    have hb2 : b < 2 := hb
    obtain ⟨h1, h2, h3, h4, h5, h6⟩ := twoBlock_lookups sp0 sp1 mx0 c0 mx1 c1
    interval_cases b
    · refine ⟨h1, ?_, ?_⟩
      · intro mx hmx
        rw [hm0] at hmx
        obtain rfl : mx0 = mx := Option.some_inj.mp hmx
        exact h2
      · intro c hc
        rw [hc0] at hc
        obtain rfl : c0 = c := Option.some_inj.mp hc
        exact h3
    · refine ⟨h4, ?_, ?_⟩
      · intro mx hmx
        rw [hm1] at hmx
        obtain rfl : mx1 = mx := Option.some_inj.mp hmx
        exact h5
      · intro c hc
        rw [hc1] at hc
        obtain rfl : c1 = c := Option.some_inj.mp hc
        exact h6

/-- The running-maximum recurrence: starting from a baseline, fold
`np.maximum(new, acc)` over the snapshots in arrival order. -/
def runningMax (base : Series) : List Series → Series
  | [] => base
  | s :: rest => runningMax (List.zipWith max s base) rest

theorem runningMax_append (base : Series) (xs : List Series) (s : Series) :
    runningMax base (xs ++ [s]) = List.zipWith max s (runningMax base xs) := by
  induction xs generalizing base with
  | nil => rfl
  | cons x xs ih =>
      simp only [List.cons_append, runningMax]
      exact ih (List.zipWith max x base)

theorem runningMax_length (base : Series) (xs : List Series) (n : Nat)
    (hb : base.length = n) (hx : ∀ s ∈ xs, s.length = n) :
    (runningMax base xs).length = n := by
  induction xs generalizing base with
  | nil => exact hb
  | cons x xs ih =>
      simp only [runningMax]
      refine ih _ ?_ (fun s hsm => hx s (by simp [hsm]))
      rw [List.length_zipWith, hb, hx x (by simp)]
      simp

/-- A whole well-formed snapshot sequence processed from a good state:
every step succeeds and the final running-maximum series is the
elementwise-max fold of the incoming spectra over the baseline. -/
theorem runMsgs_good (msgs : List SpanMsg) (st : ScopeState)
    (hg : GoodState st) (hw : WFMsgs msgs) :
    ∃ st2, runMsgs st msgs = some st2 ∧ GoodState st2 ∧
      ∀ b, b < numRfBlocks → ∀ mx, dictGet st.data (maximaKey b) = some mx →
        dictGet st2.data (maximaKey b) =
          some (runningMax mx (msgs.map (fun m2 => m2.blockSpectrum b))) := by
  induction msgs generalizing st with
  | nil =>
      refine ⟨st, rfl, hg, ?_⟩
      intro b hb mx hmx
      simpa [runningMax] using hmx
  | cons m rest ih =>
      have hwm : WFMsg m := hw m (by simp)
      obtain ⟨st1, hstep, hg1, hfacts⟩ := spanStep_good st m hg hwm
      obtain ⟨st2, hrun, hg2, hmax⟩ := ih st1 hg1 (fun m2 hm2 => hw m2 (by simp [hm2]))
      refine ⟨st2, ?_, hg2, ?_⟩
      · simp only [runMsgs, hstep, hrun]
      · intro b hb mx hmx
        have h1 := (hfacts b hb).2.1 mx hmx
        have h2 := hmax b hb _ h1
        simpa [runningMax] using h2

theorem cmaVisibleChangeHandler_false (st : ScopeState) :
    cmaVisibleChangeHandler st false = st := rfl

/-- The reset handler on `new = True`: it zeroes exactly the two
`spectrumCMA` entries (to `np.zeros(256)`) and touches nothing else. -/
theorem reset_char (st : ScopeState) :
    (cmaVisibleChangeHandler st true).blockMetadataLabels =
        st.blockMetadataLabels ∧
    (∀ b, b < numRfBlocks →
      dictGet (cmaVisibleChangeHandler st true).data (cmaKey b) =
        some (npZeros 256)) ∧
    (∀ key, key ≠ cmaKey 0 → key ≠ cmaKey 1 →
      dictGet (cmaVisibleChangeHandler st true).data key =
        dictGet st.data key) := by
  have hdata : (cmaVisibleChangeHandler st true).data =
      dictSet (dictSet st.data (cmaKey 0) (npZeros 256)) (cmaKey 1)
        (npZeros 256) := rfl
  refine ⟨rfl, ?_, ?_⟩
  · intro b hb
    have hb2 : b < 2 := hb
    interval_cases b
    · rw [hdata, dictGet_dictSet_ne _ _ _ _ (by decide), dictGet_dictSet_same]
    · rw [hdata, dictGet_dictSet_same]
  · intro key h0 h1
    rw [hdata, dictGet_dictSet_ne _ _ _ _ h1, dictGet_dictSet_ne _ _ _ _ h0]

theorem reachable_good (st : ScopeState) (h : Reachable st) : GoodState st := by
  induction h with
  | init => exact goodState_initial
  | span hr hstep ih =>
      rename_i st0 m st2
      obtain ⟨sp0, sp1, hsp, hb0, hb1⟩ := spanStep_some_inv st0 m st2 ih hstep
      have hwf : WFMsg m := by
        refine ⟨by rw [hsp]; rfl, ?_⟩
        intro sp hsp2
        rw [hsp] at hsp2
        simp only [List.mem_cons, List.not_mem_nil, or_false] at hsp2
        rcases hsp2 with rfl | rfl
        · exact hb0
        · exact hb1
      obtain ⟨st3, heq, hgood, _⟩ := spanStep_good st0 m ih hwf
      rw [hstep] at heq
      obtain rfl : st2 = st3 := Option.some_inj.mp heq
      exact hgood
  | reset b hr ih =>
      rename_i st0
      cases b with
      | false => rw [cmaVisibleChangeHandler_false]; exact ih
      | true =>
          obtain ⟨hlbl, hcma, hother⟩ := reset_char st0
          obtain ⟨hlab, hblocks⟩ := ih
          refine ⟨by rw [hlbl]; exact hlab, ?_⟩
          intro b2 hb2
          obtain ⟨⟨mx, hmx, hmxlen, hmxpos⟩, _⟩ := hblocks b2 hb2
          have hb22 : b2 < 2 := hb2
          refine ⟨⟨mx, ?_, hmxlen, hmxpos⟩, ⟨npZeros 256, hcma b2 hb2, ?_⟩⟩
          · interval_cases b2
            · rw [hother _ (by decide) (by decide)]; exact hmx
            · rw [hother _ (by decide) (by decide)]; exact hmx
          · simp only [npZeros, List.length_replicate, SPAN_BIN_COUNT]

/-! ### Demo data and statement-level definitions -/

def demoFreqs : Series := npZeros SPAN_BIN_COUNT

def demoBlock (v : ℚ) : BlockSpectrum :=
  ⟨demoFreqs, List.replicate SPAN_BIN_COUNT v, 3⟩

/-- A well-formed demo snapshot: both configured blocks constant at `v`. -/
def demoMsg (v : ℚ) : SpanMsg := ⟨[demoBlock v, demoBlock v]⟩

theorem demoMsg_wf (v : ℚ) : WFMsg (demoMsg v) := by
  refine ⟨rfl, ?_⟩
  intro sp hsp
  simp only [demoMsg, List.mem_cons, List.not_mem_nil, or_false] at hsp
  rcases hsp with rfl | rfl <;>
    simp only [demoBlock, List.length_replicate]

/-- Pointwise `≤` on series. -/
def SeriesLE (a b : Series) : Prop := List.Forall₂ (· ≤ ·) a b

/-- Modelled from the spec: the true elementwise maximum over a nonempty
run of snapshots (the first snapshot, then the remaining ones), the
quantity §8 calls "the true elementwise maximum of all current-series
values seen since the last reset".  Stated from the spec's words, for
comparison with what the code computes. -/
def elementwiseMaxOver (first : Series) (rest : List Series) : Series :=
  runningMax first rest

theorem blockSpectrum_length (m : SpanMsg) (hm : WFMsg m) (b : Nat)
    (hb : b < numRfBlocks) :
    (m.blockSpectrum b).length = SPAN_BIN_COUNT := by
  obtain ⟨hc, hbins⟩ := hm
  obtain ⟨sp0, sp1, hsp⟩ := List.length_eq_two.mp hc
  have hb2 : b < 2 := hb
  interval_cases b
  · have : m.blockSpectrum 0 = sp0.spectrum := by
      simp [SpanMsg.blockSpectrum, hsp]
    rw [this]
    exact hbins sp0 (by rw [hsp]; simp)
  · have : m.blockSpectrum 1 = sp1.spectrum := by
      simp [SpanMsg.blockSpectrum, hsp]
    rw [this]
    exact hbins sp1 (by rw [hsp]; simp)

/-! ### The claims -/

/-- **C10.** When the consumer callback receives a position/time-fix
(PVT) message, the whole aggregate state (all per-block series and the
metadata labels) is left unchanged, and no render-sink publish is
scheduled (the payload slot of the result is `none`). -/
theorem claim_C10_pvt_no_effect (st : ScopeState) :
    queueOnEvent st (QueueEvent.ubx UBXMsg.PVT) = some (st, none) ∧
    onUBXMessage st UBXMsg.PVT "PVT" = some (st, none) :=
  ⟨rfl, rfl⟩

/-- `true` exactly on a decoded SPAN (spectrum-snapshot) message event. -/
def isSpanEvent : QueueEvent → Bool
  | QueueEvent.ubx (UBXMsg.SPAN _) => true
  | _ => false

/-- **C7.** The aggregation step runs only for SPAN messages: every
other event (PVT fixes, unrecognised UBX classes, parser errors, NMEA
traffic) leaves the state unchanged and schedules no publish — so the
aggregator's update count is unchanged by injecting such events. -/
theorem claim_C7_routing (st : ScopeState) (e : QueueEvent)
    (h : isSpanEvent e = false) :
    queueOnEvent st e = some (st, none) := by
  cases e with
  | ubx m =>
      cases m with
      | SPAN m2 => simp [isSpanEvent] at h
      | PVT => rfl
      | other n =>
          simp only [queueOnEvent, onUBXQueue, UBXMsg.className]
          by_cases hn : n ∈ ["SPAN", "PVT"]
          · rw [if_pos hn]
            simp only [onUBXMessage]
            by_cases hs : n = "SPAN"
            · rw [if_pos hs]
            · rw [if_neg hs]
          · rw [if_neg hn]
  | ubxError a b c => rfl
  | nmea a => rfl
  | nmeaError a => rfl

theorem claim_C7_witness :
    isSpanEvent (QueueEvent.ubx UBXMsg.PVT) = false ∧
    queueOnEvent initialScope (QueueEvent.ubx UBXMsg.PVT) =
      some (initialScope, none) :=
  ⟨rfl, claim_C7_routing initialScope (QueueEvent.ubx UBXMsg.PVT) rfl⟩

/-- A two-block zero baseline with 4 bins per block, as in the spec's
worked example. -/
def zeroScope4 : ScopeState :=
  ⟨[(freqKey 0, npZeros 4), (spectrumKey 0, npZeros 4),
    (maximaKey 0, npZeros 4), (cmaKey 0, npZeros 4),
    (freqKey 1, npZeros 4), (spectrumKey 1, npZeros 4),
    (maximaKey 1, npZeros 4), (cmaKey 1, npZeros 4)],
   ["NO_DATA", "NO_DATA"]⟩

def snap1 : SpanMsg :=
  ⟨[⟨npZeros 4, [10, 20, 30, 40], 3⟩, ⟨npZeros 4, [10, 20, 30, 40], 3⟩]⟩

def snap2 : SpanMsg :=
  ⟨[⟨npZeros 4, [15, 5, 35, 10], 3⟩, ⟨npZeros 4, [15, 5, 35, 10], 3⟩]⟩

set_option maxRecDepth 400000 in
/-- **C6.** The spec's worked example, run through the real update: from
a 4-bin zero baseline, snapshot `[10,20,30,40]` yields max
`[10,20,30,40]` and mean `[5,10,15,20]`; snapshot `[15,5,35,10]` then
yields max `[15,20,35,40]` and mean `[10,7.5,25,15]`. -/
theorem claim_C6_worked_example :
    ((runMsgs zeroScope4 [snap1]).map (fun st =>
        (dictGet st.data (maximaKey 0), dictGet st.data (cmaKey 0))) =
      some (some [10, 20, 30, 40], some [5, 10, 15, 20])) ∧
    ((runMsgs zeroScope4 [snap1, snap2]).map (fun st =>
        (dictGet st.data (maximaKey 0), dictGet st.data (cmaKey 0))) =
      some (some [15, 20, 35, 40], some [10, 15 / 2, 25, 15])) := by
  constructor <;> with_unfolding_all decide

/-- A snapshot whose blocks carry 4 bins instead of the stored 256. -/
def demoBlock4 : BlockSpectrum := ⟨[0, 0, 0, 0], [10, 20, 30, 40], 3⟩

def demoMsg4 : SpanMsg := ⟨[demoBlock4, demoBlock4]⟩

set_option maxRecDepth 400000 in
/-- **C4 counterexample.** A 256-bin snapshot followed by a 4-bin
snapshot: the second update raises (`runMsgs` ends in `none`, the model
of a numpy broadcast error), whereas the claim demands that no error be
raised and that the series be re-baselined to the new length. -/
theorem claim_C4_counterexample :
    runMsgs initialScope [demoMsg 10, demoMsg4] = none ∧
    runMsgs initialScope [demoMsg 10] ≠ none := by
  constructor <;> with_unfolding_all decide

/-- **C4 (amended).** Changing a block's bin count between two
consecutive updates makes the next update RAISE (numpy broadcast or
ragged-stack error): it yields no new state at all, instead of the
claimed silent re-baseline to the new length. -/
theorem claim_C4_bin_count_change (st : ScopeState) (hg : GoodState st)
    (sp0 sp1 : BlockSpectrum)
    (h : sp0.spectrum.length ≠ SPAN_BIN_COUNT ∨
      sp1.spectrum.length ≠ SPAN_BIN_COUNT) :
    spanStep st ⟨[sp0, sp1]⟩ = none := by
  cases hs : spanStep st ⟨[sp0, sp1]⟩ with
  | none => rfl
  | some st2 =>
      exfalso
      obtain ⟨sp0b, sp1b, hsp, hb0, hb1⟩ := spanStep_some_inv st _ st2 hg hs
      simp only [List.cons.injEq, and_true] at hsp
      obtain ⟨rfl, rfl, -⟩ := hsp
      rcases h with h | h
      · exact h hb0
      · exact h hb1

theorem claim_C4_witness :
    GoodState initialScope ∧
    (demoBlock4.spectrum.length ≠ SPAN_BIN_COUNT ∨
      demoBlock4.spectrum.length ≠ SPAN_BIN_COUNT) ∧
    spanStep initialScope ⟨[demoBlock4, demoBlock4]⟩ = none :=
  ⟨goodState_initial, Or.inl (by decide),
    claim_C4_bin_count_change initialScope goodState_initial demoBlock4
      demoBlock4 (Or.inl (by decide))⟩

/-- The eight series names of a two-block render payload, in the order
the update writes them. -/
def expectedKeys : List String :=
  [freqKey 0, spectrumKey 0, maximaKey 0, cmaKey 0,
   freqKey 1, spectrumKey 1, maximaKey 1, cmaKey 1]

theorem onSpanPayload_eq (st : ScopeState) (m : SpanMsg) (p : Payload)
    (hpb : processBlocks st.data m.spectra.enum
      ⟨[], [MetaEntry.initInt numRfBlocks, MetaEntry.noneVal]⟩ = some p) :
    onSpanPayload st m = some p := by
  simp only [onSpanPayload, onUBXMessage, if_pos rfl, if_true, hpb, Option.bind]

/-- **C5 (amended).** When the snapshot carries exactly the two
configured blocks, the scheduled render payload holds exactly the
4 × 2 = 8 expected keys, in write order, with none missing and none
extra.  (In general the code emits 4 keys per block of the incoming
message, not per configured block — see the counterexample.) -/
theorem claim_C5_payload_keys (st : ScopeState) (hg : GoodState st)
    (m : SpanMsg) (hm : WFMsg m) :
    ∃ p, onSpanPayload st m = some p ∧
      dictKeys p.spectrumData = expectedKeys ∧
      (dictKeys p.spectrumData).length = 4 * numRfBlocks := by
  obtain ⟨hlab, hblocks⟩ := hg
  obtain ⟨⟨mx0, hm0, hm0len, hm0pos⟩, ⟨c0, hc0, hc0len⟩⟩ :=
    hblocks 0 (by norm_num [numRfBlocks])
  obtain ⟨⟨mx1, hm1, hm1len, hm1pos⟩, ⟨c1, hc1, hc1len⟩⟩ :=
    hblocks 1 (by norm_num [numRfBlocks])
  obtain ⟨hcount, hbins⟩ := hm
  obtain ⟨sp0, sp1, hsp⟩ := List.length_eq_two.mp hcount
  have hb0 : sp0.spectrum.length = SPAN_BIN_COUNT := by
    apply hbins; rw [hsp]; simp
  have hb1 : sp1.spectrum.length = SPAN_BIN_COUNT := by
    apply hbins; rw [hsp]; simp
  obtain ⟨ms⟩ := m
  simp only at hsp
  subst hsp
  have hpb := processBlocks_two st.data sp0 sp1 mx0 mx1 c0 c1 hm0 hc0 hm1 hc1
    (by rw [hb0, hm0len]) (by rw [hb0, hc0len]) (by rw [hb1, hm1len])
    (by rw [hb1, hc1len])
  refine ⟨twoBlockPayload sp0 sp1 mx0 c0 mx1 c1, onSpanPayload_eq _ _ _ hpb,
    rfl, rfl⟩

/-- A SPAN snapshot reporting only one RF block (256 bins). -/
def demoMsg1 : SpanMsg := ⟨[demoBlock 10]⟩

set_option maxRecDepth 400000 in
/-- **C5 counterexample.** A one-block snapshot is accepted and
scheduled for rendering with only 4 keys — not the 4 × 2 = 8 keys the
claim requires of every update call. -/
theorem claim_C5_counterexample :
    (onSpanPayload initialScope demoMsg1).map
        (fun p => dictKeys p.spectrumData) =
      some [freqKey 0, spectrumKey 0, maximaKey 0, cmaKey 0] ∧
    4 ≠ 4 * numRfBlocks := by
  constructor
  · with_unfolding_all decide
  · decide

theorem claim_C5_witness :
    GoodState initialScope ∧ WFMsg (demoMsg 10) ∧
    ∃ p, onSpanPayload initialScope (demoMsg 10) = some p ∧
      dictKeys p.spectrumData = expectedKeys ∧
      (dictKeys p.spectrumData).length = 4 * numRfBlocks :=
  ⟨goodState_initial, demoMsg_wf 10,
    claim_C5_payload_keys initialScope goodState_initial (demoMsg 10)
      (demoMsg_wf 10)⟩

theorem goodState_reset (st : ScopeState) (hg : GoodState st) :
    GoodState (cmaVisibleChangeHandler st true) := by
  obtain ⟨hlbl, hcma, hother⟩ := reset_char st
  obtain ⟨hlab, hblocks⟩ := hg
  refine ⟨by rw [hlbl]; exact hlab, ?_⟩
  intro b hb
  obtain ⟨⟨mx, hmx, hmxlen, hmxpos⟩, _⟩ := hblocks b hb
  have hb2 : b < 2 := hb
  refine ⟨⟨mx, ?_, hmxlen, hmxpos⟩, ⟨npZeros 256, hcma b hb, ?_⟩⟩
  · interval_cases b
    · rw [hother _ (by decide) (by decide)]; exact hmx
    · rw [hother _ (by decide) (by decide)]; exact hmx
  · simp only [npZeros, List.length_replicate, SPAN_BIN_COUNT]

theorem zipWith_avg_zeros (s : Series) (n : Nat) (h : s.length = n) :
    List.zipWith (fun x y => (x + y) / 2) s (npZeros n) =
      s.map (fun x => x / 2) := by
  induction s generalizing n with
  | nil => simp
  | cons x s ih =>
      cases n with
      | zero => simp at h
      | succ n =>
          simp only [npZeros, List.replicate_succ, List.zipWith_cons_cons,
            List.map_cons, add_zero]
          have := ih n (by simpa using h)
          simp only [npZeros] at this
          rw [this]

/-- **C2 (amended).** The visibility-reset handler zeroes ONLY the
running-mean (CMA) series of each block, to `np.zeros(256)`; the
running-maximum series, the other dict entries and the labels are left
untouched.  The next well-formed update after a reset therefore yields
running-mean = current/2 (zero baseline) — but running-maximum is still
`max(current, previous maximum)`, NOT re-baselined to the current
series. -/
theorem claim_C2_reset (st : ScopeState) (hg : GoodState st) :
    (cmaVisibleChangeHandler st true).blockMetadataLabels =
        st.blockMetadataLabels ∧
    (∀ b, b < numRfBlocks →
      dictGet (cmaVisibleChangeHandler st true).data (cmaKey b) =
        some (npZeros 256)) ∧
    (∀ key, key ≠ cmaKey 0 → key ≠ cmaKey 1 →
      dictGet (cmaVisibleChangeHandler st true).data key =
        dictGet st.data key) ∧
    (∀ m, WFMsg m → ∃ st2,
      spanStep (cmaVisibleChangeHandler st true) m = some st2 ∧
      ∀ b, b < numRfBlocks →
        dictGet st2.data (cmaKey b) =
          some ((m.blockSpectrum b).map (fun x => x / 2)) ∧
        ∀ mx, dictGet st.data (maximaKey b) = some mx →
          dictGet st2.data (maximaKey b) =
            some (List.zipWith max (m.blockSpectrum b) mx)) := by
  obtain ⟨hlbl, hcma, hother⟩ := reset_char st
  refine ⟨hlbl, hcma, hother, ?_⟩
  intro m hm
  obtain ⟨st2, hstep, _, hfacts⟩ :=
    spanStep_good (cmaVisibleChangeHandler st true) m (goodState_reset st hg) hm
  refine ⟨st2, hstep, ?_⟩
  intro b hb
  have hb2 : b < 2 := hb
  constructor
  · have h1 := (hfacts b hb).2.2 (npZeros 256) (hcma b hb)
    rw [h1, zipWith_avg_zeros (m.blockSpectrum b) 256
      (blockSpectrum_length m hm b hb)]
  · intro mx hmx
    refine (hfacts b hb).2.1 mx ?_
    interval_cases b
    · rw [hother _ (by decide) (by decide)]; exact hmx
    · rw [hother _ (by decide) (by decide)]; exact hmx

set_option maxRecDepth 400000 in
/-- **C2 counterexample.** From the reachable state after one update
with value 10 everywhere, the reset handler leaves the block-0
running-maximum series at 10 — not the all-zero series the claim
demands. -/
theorem claim_C2_counterexample :
    (runMsgs initialScope [demoMsg 10]).map (fun st =>
        dictGet (cmaVisibleChangeHandler st true).data (maximaKey 0)) =
      some (some (List.replicate 256 10)) ∧
    List.replicate 256 (10 : ℚ) ≠ npZeros 256 := by
  constructor <;> with_unfolding_all decide

theorem claim_C2_witness :
    GoodState initialScope ∧
    ((cmaVisibleChangeHandler initialScope true).blockMetadataLabels =
        initialScope.blockMetadataLabels ∧
    (∀ b, b < numRfBlocks →
      dictGet (cmaVisibleChangeHandler initialScope true).data (cmaKey b) =
        some (npZeros 256)) ∧
    (∀ key, key ≠ cmaKey 0 → key ≠ cmaKey 1 →
      dictGet (cmaVisibleChangeHandler initialScope true).data key =
        dictGet initialScope.data key) ∧
    (∀ m, WFMsg m → ∃ st2,
      spanStep (cmaVisibleChangeHandler initialScope true) m = some st2 ∧
      ∀ b, b < numRfBlocks →
        dictGet st2.data (cmaKey b) =
          some ((m.blockSpectrum b).map (fun x => x / 2)) ∧
        ∀ mx, dictGet initialScope.data (maximaKey b) = some mx →
          dictGet st2.data (maximaKey b) =
            some (List.zipWith max (m.blockSpectrum b) mx))) :=
  ⟨goodState_initial, claim_C2_reset initialScope goodState_initial⟩

set_option maxRecDepth 400000 in
/-- **C3.** Every update writes, for each block, the running-mean series
`(current + previous mean) / 2` elementwise — and this two-term
recurrence is NOT a true cumulative mean over the snapshots since reset:
on the constant snapshots 0, 0, 12 the code yields 6 everywhere while
the true cumulative mean (`np.mean` over the three snapshots) is 4. -/
theorem claim_C3_two_term_mean :
    (∀ st m, GoodState st → WFMsg m →
      ∃ st2, spanStep st m = some st2 ∧
        ∀ b, b < numRfBlocks → ∀ c, dictGet st.data (cmaKey b) = some c →
          dictGet st2.data (cmaKey b) =
            some (List.zipWith (fun x y => (x + y) / 2) (m.blockSpectrum b) c)) ∧
    cmaAfter [demoMsg 0, demoMsg 0, demoMsg 12] 0 =
      some (List.replicate SPAN_BIN_COUNT 6) ∧
    npMeanAxis0 ([demoMsg 0, demoMsg 0, demoMsg 12].map
      (fun m2 => m2.blockSpectrum 0)) = List.replicate SPAN_BIN_COUNT 4 ∧
    List.replicate SPAN_BIN_COUNT (6 : ℚ) ≠
      List.replicate SPAN_BIN_COUNT 4 := by
  refine ⟨?_, ?_, ?_, ?_⟩
  · intro st m hg hm
    obtain ⟨st2, hstep, _, hfacts⟩ := spanStep_good st m hg hm
    exact ⟨st2, hstep, fun b hb => (hfacts b hb).2.2⟩
  · with_unfolding_all decide
  · with_unfolding_all decide
  · with_unfolding_all decide

theorem claim_C3_witness :
    GoodState initialScope ∧ WFMsg (demoMsg 7) ∧
    ∃ st2, spanStep initialScope (demoMsg 7) = some st2 ∧
      ∀ b, b < numRfBlocks →
        ∀ c, dictGet initialScope.data (cmaKey b) = some c →
          dictGet st2.data (cmaKey b) =
            some (List.zipWith (fun x y => (x + y) / 2)
              ((demoMsg 7).blockSpectrum b) c) :=
  ⟨goodState_initial, demoMsg_wf 7,
    claim_C3_two_term_mean.1 initialScope (demoMsg 7) goodState_initial
      (demoMsg_wf 7)⟩

set_option maxRecDepth 400000 in
/-- **C1 counterexample.** One all-negative snapshot from the zero
baseline: the code's running maximum stays at 0 everywhere, while the
true elementwise maximum over the snapshots seen since the start is -1
— so the claimed equality with the elementwise maximum of snapshots
1..k fails. -/
theorem claim_C1_counterexample :
    maximaAfter [demoMsg (-1)] 0 = some (List.replicate 256 0) ∧
    elementwiseMaxOver ((demoMsg (-1)).blockSpectrum 0) [] =
      List.replicate 256 (-1) ∧
    List.replicate 256 (0 : ℚ) ≠ List.replicate 256 (-1 : ℚ) := by
  refine ⟨?_, ?_, ?_⟩ <;> with_unfolding_all decide

/-- **C1 (amended).** For every well-formed snapshot sequence processed
from the freshly initialised scope with its all-zero baseline:
(a) after the first `k` snapshots the running-maximum series of block
`b` equals the elementwise-max fold of those snapshots over the zero
baseline (pointwise `max 0 (true elementwise maximum)`);
(b) it is monotonically non-decreasing from each snapshot to the next;
(c) it equals the spec's true elementwise maximum of the snapshots
whenever all snapshot values are nonnegative — the zero baseline only
clamps negative maxima. -/
theorem claim_C1_running_maximum (msgs : List SpanMsg) (hw : WFMsgs msgs)
    (b : Nat) (hb : b < numRfBlocks) :
    (∀ k, maximaAfter (msgs.take k) b =
      some (runningMax (npZeros SPAN_BIN_COUNT)
        ((msgs.take k).map (fun m2 => m2.blockSpectrum b)))) ∧
    (∀ k xs ys, maximaAfter (msgs.take k) b = some xs →
      maximaAfter (msgs.take (k + 1)) b = some ys → SeriesLE xs ys) ∧
    (∀ m0 rest, msgs = m0 :: rest →
      (∀ m2 ∈ msgs, ∀ x ∈ m2.blockSpectrum b, 0 ≤ x) →
      maximaAfter msgs b =
        some (elementwiseMaxOver (m0.blockSpectrum b)
          (rest.map (fun m2 => m2.blockSpectrum b)))) := by
  have hbase : dictGet initialScope.data (maximaKey b) =
      some (npZeros SPAN_BIN_COUNT) := by
    have hb2 : b < 2 := hb
    interval_cases b <;> rfl
  have hA : ∀ ms : List SpanMsg, WFMsgs ms →
      maximaAfter ms b = some (runningMax (npZeros SPAN_BIN_COUNT)
        (ms.map (fun m2 => m2.blockSpectrum b))) := by
    intro ms hms
    obtain ⟨st2, hrun, _, hmax⟩ :=
      runMsgs_good ms initialScope goodState_initial hms
    have h2 := hmax b hb _ hbase
    simp only [maximaAfter, hrun, Option.some_bind, h2]
  have htakeWF : ∀ k, WFMsgs (msgs.take k) :=
    fun k m2 hm2 => hw m2 (List.take_subset k msgs hm2)
  refine ⟨fun k => hA (msgs.take k) (htakeWF k), ?_, ?_⟩
  · intro k xs ys hxs hys
    rw [hA (msgs.take k) (htakeWF k)] at hxs
    rw [hA (msgs.take (k + 1)) (htakeWF (k + 1))] at hys
    obtain rfl := Option.some_inj.mp hxs
    obtain rfl := Option.some_inj.mp hys
    by_cases hk : k < msgs.length
    · have htake : msgs.take (k + 1) =
          msgs.take k ++ [msgs.get ⟨k, hk⟩] := by
        rw [List.take_succ]
        simp [List.getElem?_eq_getElem hk]
      rw [htake, List.map_append, List.map_singleton, runningMax_append]
      apply le_zipWith_max
      have hlen1 : (runningMax (npZeros SPAN_BIN_COUNT)
          ((msgs.take k).map (fun m2 => m2.blockSpectrum b))).length =
          SPAN_BIN_COUNT := by
        apply runningMax_length
        · simp [npZeros]
        · intro s hsm
          obtain ⟨m2, hm2, rfl⟩ := List.mem_map.mp hsm
          exact blockSpectrum_length m2 (htakeWF k m2 hm2) b hb
      have hlen2 : ((msgs.get ⟨k, hk⟩).blockSpectrum b).length =
          SPAN_BIN_COUNT :=
        blockSpectrum_length _ (hw _ (msgs.get_mem _ _)) b hb
      rw [hlen1, hlen2]
    · have h1 : msgs.take k = msgs := List.take_of_length_le (le_of_not_lt hk)
      have h2 : msgs.take (k + 1) = msgs :=
        List.take_of_length_le (le_trans (le_of_not_lt hk) (Nat.le_succ k))
      rw [h1, h2]
      exact List.forall₂_refl _
  · intro m0 rest hmsgs hpos
    subst hmsgs
    rw [hA (m0 :: rest) hw]
    have hstep : runningMax (npZeros SPAN_BIN_COUNT)
        ((m0 :: rest).map (fun m2 => m2.blockSpectrum b)) =
        runningMax (List.zipWith max (m0.blockSpectrum b)
          (npZeros SPAN_BIN_COUNT))
          (rest.map (fun m2 => m2.blockSpectrum b)) := rfl
    rw [hstep, zipWith_max_zeros (m0.blockSpectrum b) SPAN_BIN_COUNT
      (blockSpectrum_length m0 (hw m0 (by simp)) b hb)
      (hpos m0 (by simp))]
    rfl

theorem claim_C1_witness :
    WFMsgs [demoMsg 10] ∧ 0 < numRfBlocks ∧
    ((∀ k, maximaAfter ([demoMsg 10].take k) 0 =
      some (runningMax (npZeros SPAN_BIN_COUNT)
        (([demoMsg 10].take k).map (fun m2 => m2.blockSpectrum 0)))) ∧
    (∀ k xs ys, maximaAfter ([demoMsg 10].take k) 0 = some xs →
      maximaAfter ([demoMsg 10].take (k + 1)) 0 = some ys → SeriesLE xs ys) ∧
    (∀ m0 rest, [demoMsg 10] = m0 :: rest →
      (∀ m2 ∈ [demoMsg 10], ∀ x ∈ m2.blockSpectrum 0, 0 ≤ x) →
      maximaAfter [demoMsg 10] 0 =
        some (elementwiseMaxOver (m0.blockSpectrum 0)
          (rest.map (fun m2 => m2.blockSpectrum 0))))) := by
  have hwf : WFMsgs [demoMsg 10] := by
    intro m hm
    simp only [List.mem_cons, List.not_mem_nil, or_false] at hm
    rw [hm]
    exact demoMsg_wf 10
  exact ⟨hwf, by norm_num [numRfBlocks],
    claim_C1_running_maximum [demoMsg 10] hwf 0 (by norm_num [numRfBlocks])⟩

/-- **C8.** After every completed update from a reachable state, each
block's three derived series (current, running maximum, running mean)
have exactly the incoming snapshot's bin count for that block. -/
theorem claim_C8_series_lengths (st : ScopeState) (m : SpanMsg)
    (st2 : ScopeState) (hr : Reachable st) (hs : spanStep st m = some st2) :
    ∀ b, b < numRfBlocks →
      ∃ s mx c, dictGet st2.data (spectrumKey b) = some s ∧
        dictGet st2.data (maximaKey b) = some mx ∧
        dictGet st2.data (cmaKey b) = some c ∧
        s.length = (m.blockSpectrum b).length ∧
        mx.length = (m.blockSpectrum b).length ∧
        c.length = (m.blockSpectrum b).length := by
  have hg := reachable_good st hr
  obtain ⟨sp0, sp1, hsp, hb0, hb1⟩ := spanStep_some_inv st m st2 hg hs
  have hwf : WFMsg m := by
    refine ⟨by rw [hsp]; rfl, ?_⟩
    intro sp hsp2
    rw [hsp] at hsp2
    simp only [List.mem_cons, List.not_mem_nil, or_false] at hsp2
    rcases hsp2 with rfl | rfl
    · exact hb0
    · exact hb1
  obtain ⟨st3, heq, hg3, hfacts⟩ := spanStep_good st m hg hwf
  rw [hs] at heq
  obtain rfl : st2 = st3 := Option.some_inj.mp heq
  intro b hb
  obtain ⟨hgl, hgb⟩ := hg
  obtain ⟨⟨mx0, hmx0, hmx0len, _⟩, ⟨c0, hc0, hc0len⟩⟩ := hgb b hb
  obtain ⟨hspec, hmaxf, hcmaf⟩ := hfacts b hb
  refine ⟨m.blockSpectrum b, _, _, hspec, hmaxf mx0 hmx0, hcmaf c0 hc0,
    rfl, ?_, ?_⟩
  · rw [List.length_zipWith, blockSpectrum_length m hwf b hb, hmx0len]
    simp
  · rw [List.length_zipWith, blockSpectrum_length m hwf b hb, hc0len]
    simp

theorem claim_C8_witness :
    Reachable initialScope ∧
    ∃ st2, spanStep initialScope (demoMsg 10) = some st2 ∧
      ∀ b, b < numRfBlocks →
        ∃ s mx c, dictGet st2.data (spectrumKey b) = some s ∧
          dictGet st2.data (maximaKey b) = some mx ∧
          dictGet st2.data (cmaKey b) = some c ∧
          s.length = ((demoMsg 10).blockSpectrum b).length ∧
          mx.length = ((demoMsg 10).blockSpectrum b).length ∧
          c.length = ((demoMsg 10).blockSpectrum b).length := by
  refine ⟨Reachable.init, ?_⟩
  obtain ⟨st2, hstep, -, -⟩ :=
    spanStep_good initialScope (demoMsg 10) goodState_initial (demoMsg_wf 10)
  exact ⟨st2, hstep,
    claim_C8_series_lengths initialScope (demoMsg 10) st2 Reachable.init hstep⟩

theorem zipWith_max_zeros_of_nonpos (s : Series) (n : Nat)
    (hn : s.length = n) (hs : ∀ x ∈ s, x ≤ 0) :
    List.zipWith max s (npZeros n) = npZeros n := by
  induction s generalizing n with
  | nil => cases n with
    | zero => rfl
    | succ n => simp at hn
  | cons x s ih =>
      cases n with
      | zero => simp at hn
      | succ n =>
          simp only [npZeros, List.replicate_succ, List.zipWith_cons_cons]
          rw [max_eq_right (hs x (by simp))]
          have := ih n (by simpa using hn) (fun w hw => hs w (by simp [hw]))
          simp only [npZeros] at this
          rw [this]

theorem runningMax_zeros_of_nonpos (xs : List Series) (n : Nat)
    (hlen : ∀ s ∈ xs, s.length = n) (hneg : ∀ s ∈ xs, ∀ x ∈ s, x ≤ 0) :
    runningMax (npZeros n) xs = npZeros n := by
  induction xs with
  | nil => rfl
  | cons s rest ih =>
      simp only [runningMax]
      rw [zipWith_max_zeros_of_nonpos s n (hlen s (by simp))
        (hneg s (by simp))]
      exact ih (fun s2 hs2 => hlen s2 (by simp [hs2]))
        (fun s2 hs2 => hneg s2 (by simp [hs2]))

/-- **C9.** In every reachable state every entry of every block's
running-maximum series is nonnegative; and for snapshot runs whose
values at a block are all negative, the running maximum stays the
all-zero baseline instead of the true (negative) maximum. -/
theorem claim_C9_maxima_nonneg :
    (∀ st, Reachable st → ∀ b, b < numRfBlocks →
      ∃ mx, dictGet st.data (maximaKey b) = some mx ∧ ∀ x ∈ mx, 0 ≤ x) ∧
    (∀ msgs b, WFMsgs msgs → b < numRfBlocks →
      (∀ m2 ∈ msgs, ∀ x ∈ m2.blockSpectrum b, x < 0) →
      maximaAfter msgs b = some (npZeros SPAN_BIN_COUNT)) := by
  constructor
  · intro st hr b hb
    obtain ⟨-, hgb⟩ := reachable_good st hr
    obtain ⟨⟨mx, hmx, -, hpos⟩, -⟩ := hgb b hb
    exact ⟨mx, hmx, hpos⟩
  · intro msgs b hw hb hneg
    obtain ⟨st2, hrun, -, hmax⟩ :=
      runMsgs_good msgs initialScope goodState_initial hw
    have hbase : dictGet initialScope.data (maximaKey b) =
        some (npZeros SPAN_BIN_COUNT) := by
      have hb2 : b < 2 := hb
      interval_cases b <;> rfl
    have h2 := hmax b hb _ hbase
    have h3 : runningMax (npZeros SPAN_BIN_COUNT)
        (msgs.map (fun m2 => m2.blockSpectrum b)) = npZeros SPAN_BIN_COUNT := by
      apply runningMax_zeros_of_nonpos
      · intro s hsm
        obtain ⟨m2, hm2, rfl⟩ := List.mem_map.mp hsm
        exact blockSpectrum_length m2 (hw m2 hm2) b hb
      · intro s hsm x hx
        obtain ⟨m2, hm2, rfl⟩ := List.mem_map.mp hsm
        exact le_of_lt (hneg m2 hm2 x hx)
    rw [h3] at h2
    simp only [maximaAfter, hrun, Option.some_bind, h2]

set_option maxRecDepth 400000 in
theorem claim_C9_witness :
    (Reachable initialScope ∧ 0 < numRfBlocks ∧
      ∃ mx, dictGet initialScope.data (maximaKey 0) = some mx ∧
        ∀ x ∈ mx, 0 ≤ x) ∧
    (WFMsgs [demoMsg (-1)] ∧
      (∀ m2 ∈ [demoMsg (-1)], ∀ x ∈ m2.blockSpectrum 0, x < 0) ∧
      maximaAfter [demoMsg (-1)] 0 = some (npZeros SPAN_BIN_COUNT)) := by
  have hwf : WFMsgs [demoMsg (-1)] := by
    intro m hm
    simp only [List.mem_cons, List.not_mem_nil, or_false] at hm
    rw [hm]
    exact demoMsg_wf (-1)
  have hneg : ∀ m2 ∈ [demoMsg (-1)], ∀ x ∈ m2.blockSpectrum 0, x < 0 := by
    with_unfolding_all decide
  constructor
  · exact ⟨Reachable.init, by norm_num [numRfBlocks],
      claim_C9_maxima_nonneg.1 initialScope Reachable.init 0
        (by norm_num [numRfBlocks])⟩
  · exact ⟨hwf, hneg,
      claim_C9_maxima_nonneg.2 [demoMsg (-1)] 0 hwf
        (by norm_num [numRfBlocks]) hneg⟩
